import Mathlib

/-!
Shallow embedding of the WebGL context manager of this repository
(class WebGLContextManager): a registry of rendering-context owners
bounded by MAX_CONTEXTS, with priority/age-based eviction.

Modelling choices, all taken from the source:
* the JS Map from string to ContextOwner is modelled as an association
  list in insertion order with unique keys (Registry); Map.get, Map.set,
  Map.delete and Map iteration are modelled by mapGet, mapSet, mapDelete
  and list folds, matching the JS Map contract (set on an existing key
  updates the value in place and keeps the insertion position, set on a
  fresh key appends, iteration is in insertion order);
* cleanup callbacks are opaque in the source, so they are modelled as
  abstract tokens (Nat); every operation returns, next to the new
  registry, the list of cleanup tokens it invoked, in invocation order;
* Date.now() is modelled by passing the current time to register
  explicitly;
* the scan of removeLowestPriority starts from lowestPriority = Infinity
  and oldestTime = Infinity; priorities and timestamps in the model are
  finite integers, so Infinity appears only as the initial sentinel and
  is modelled by the value none of an Option type;
* the final guard of removeLowestPriority is written if (targetId) in the
  source, with targetId of type string-or-null: under JS truthiness this
  is false not only for null but also for the empty string, and the model
  reproduces exactly that.
-/

/-- One live rendering-context consumer (interface ContextOwner). -/
structure ContextOwner where
  id : String
  priority : Int
  cleanup : Nat
  createdAt : Nat
deriving Repr, DecidableEq

/-- The Map from id to owner, as an insertion-ordered association list. -/
abbrev Registry := List (String × ContextOwner)

/-- Capacity bound of the manager (readonly MAX_CONTEXTS = 12). -/
def MAX_CONTEXTS : Nat := 12

/-- Map.get: the value stored under k, if any (first entry with key k). -/
def mapGet (m : Registry) (k : String) : Option ContextOwner :=
  (m.find? fun p => p.1 == k).map Prod.snd

/-- Map.has: whether some entry has key k. -/
def mapContains (m : Registry) (k : String) : Bool :=
  m.any fun p => p.1 == k

/-- Map.set: update in place when k is present, append otherwise. -/
def mapSet (m : Registry) (k : String) (v : ContextOwner) : Registry :=
  if mapContains m k then
    m.map fun p => if p.1 == k then (k, v) else p
  else
    m ++ [(k, v)]

/-- Map.delete: drop the entry with key k. -/
def mapDelete (m : Registry) (k : String) : Registry :=
  m.filter fun p => p.1 != k

/-- Map.size. -/
def mapSize (m : Registry) : Nat := m.length

/-- State of the eviction scan: the three local variables of
removeLowestPriority, with none standing for the initial Infinity / null
sentinels. -/
structure ScanState where
  lowestPriority : Option Int
  oldestTime : Option Nat
  targetId : Option String
deriving Repr, DecidableEq

/-- One iteration of the scan loop of removeLowestPriority: take the new
owner when its priority is strictly below the lowest seen, or equal to it
with a strictly older createdAt. -/
def scanStep (s : ScanState) (p : String × ContextOwner) : ScanState :=
  let better : Bool :=
    (match s.lowestPriority with
      | none => true
      | some lp => decide (p.2.priority < lp))
    || ((match s.lowestPriority with
          | none => false
          | some lp => p.2.priority == lp)
        && (match s.oldestTime with
            | none => true
            | some ot => decide (p.2.createdAt < ot)))
  if better then ⟨some p.2.priority, some p.2.createdAt, some p.1⟩ else s

/-- unregister(id): when id is present, invoke its cleanup, then delete
it; when absent, do nothing. -/
def unregister (m : Registry) (id : String) : Registry × List Nat :=
  match mapGet m id with
  | some owner => (mapDelete m id, [owner.cleanup])
  | none => (m, [])

/-- updatePriority(id, priority): when id is present, overwrite the
owner's priority field in place; when absent, do nothing.  Invokes no
cleanup. -/
def updatePriority (m : Registry) (id : String) (priority : Int) : Registry :=
  match mapGet m id with
  | some owner => mapSet m id ⟨owner.id, priority, owner.cleanup, owner.createdAt⟩
  | none => m

/-- removeLowestPriority(): scan all owners for the lowest priority (ties
broken by oldest createdAt) and unregister the one found.  The source
guards the final call with the JS-truthy test if (targetId), which is
false for null and also for the empty string. -/
def removeLowestPriority (m : Registry) : Registry × List Nat :=
  if mapSize m == 0 then (m, [])
  else
    let s := m.foldl scanStep ⟨none, none, none⟩
    match s.targetId with
    | some tid => if tid != "" then unregister m tid else (m, [])
    | none => (m, [])

/-- register(id, cleanup, priority): when the registry is at or above
MAX_CONTEXTS, first run removeLowestPriority, then store the new owner
under id with a fresh createdAt timestamp. -/
def register (m : Registry) (id : String) (cleanup : Nat) (priority : Int)
    (now : Nat) : Registry × List Nat :=
  let step :=
    if MAX_CONTEXTS ≤ mapSize m then removeLowestPriority m else (m, [])
  (mapSet step.1 id ⟨id, priority, cleanup, now⟩, step.2)

/-- cleanup() (drain-all): invoke every registered owner's cleanup in
iteration order, then clear the registry. -/
def cleanupAll (m : Registry) : Registry × List Nat :=
  ([], m.map fun p => p.2.cleanup)

/-- getContextCount(). -/
def getContextCount (m : Registry) : Nat := mapSize m

/-- isNearLimit(): whether the count is within 2 of the capacity. -/
def isNearLimit (m : Registry) : Bool :=
  MAX_CONTEXTS - 2 ≤ mapSize m

/-- One call against the manager, for stating whole-history properties. -/
inductive Op where
  | register (id : String) (cleanup : Nat) (priority : Int) (now : Nat)
  | unregister (id : String)
  | updatePriority (id : String) (priority : Int)
  | cleanupAll
deriving Repr, DecidableEq

/-- Effect of one call: the new registry and the cleanups it invoked. -/
def applyOp (m : Registry) : Op → Registry × List Nat
  | Op.register id c p now => register m id c p now
  | Op.unregister id => unregister m id
  | Op.updatePriority id p => (updatePriority m id p, [])
  | Op.cleanupAll => cleanupAll m

/-- Registry reached after a sequence of calls. -/
def execOps (m : Registry) : List Op → Registry
  | [] => m
  | op :: ops => execOps (applyOp m op).1 ops

/-- Keys of the registry, in insertion order. -/
def keysOf (m : Registry) : List String := m.map Prod.fst

/-- Well-formedness of the Map model: keys are pairwise distinct. -/
def Wf (m : Registry) : Prop := (keysOf m).Nodup

/-- Every entry stored under key k carries id = k. -/
def keyConsistent (m : Registry) : Prop := ∀ p ∈ m, p.2.id = p.1

instance (m : Registry) : Decidable (Wf m) := by
  unfold Wf; infer_instance

instance (m : Registry) : Decidable (keyConsistent m) := by
  unfold keyConsistent; infer_instance

lemma mapGet_eq_none (m : Registry) (k : String) :
    mapGet m k = none ↔ ∀ p ∈ m, p.1 ≠ k := by
  simp [mapGet, List.find?_eq_none]

lemma mapGet_cons_pos (q : String × ContextOwner) (t : Registry) (k : String)
    (h : q.1 = k) : mapGet (q :: t) k = some q.2 := by
  simp only [mapGet]
  rw [List.find?_cons_of_pos _ (by simp [h])]
  rfl

lemma mapGet_cons_neg (q : String × ContextOwner) (t : Registry) (k : String)
    (h : q.1 ≠ k) : mapGet (q :: t) k = mapGet t k := by
  simp only [mapGet]
  rw [List.find?_cons_of_neg _ (by simp [h])]

lemma mapDelete_cons_pos (q : String × ContextOwner) (t : Registry) (k : String)
    (h : q.1 = k) : mapDelete (q :: t) k = mapDelete t k := by
  simp only [mapDelete, List.filter_cons]
  simp [h]

lemma mapDelete_cons_neg (q : String × ContextOwner) (t : Registry) (k : String)
    (h : q.1 ≠ k) : mapDelete (q :: t) k = q :: mapDelete t k := by
  simp only [mapDelete, List.filter_cons]
  simp [h]

lemma mem_of_mapGet (m : Registry) (k : String) (b : ContextOwner)
    (h : mapGet m k = some b) : (k, b) ∈ m := by
  simp only [mapGet, Option.map_eq_some'] at h
  obtain ⟨q, hq, hq2⟩ := h
  have hmem := List.mem_of_find?_eq_some hq
  have hkey := List.find?_some hq
  have : q = (k, b) := by
    obtain ⟨q1, q2⟩ := q
    simp only [beq_iff_eq] at hkey
    simp_all
  exact this ▸ hmem

lemma mapGet_of_mem (m : Registry) (k : String) (b : ContextOwner)
    (hw : Wf m) (h : (k, b) ∈ m) : mapGet m k = some b := by
  induction m with
  | nil => cases h
  | cons q t ih =>
    have hw' : q.1 ∉ keysOf t ∧ Wf t := by
      simpa [Wf, keysOf, List.nodup_cons] using hw
    rcases List.mem_cons.1 h with h | h
    · rw [mapGet_cons_pos q t k (by rw [← h])]
      rw [← h]
    · have hne : q.1 ≠ k := by
        intro he
        exact hw'.1 (he ▸ (List.mem_map.2 ⟨(k, b), h, rfl⟩))
      rw [mapGet_cons_neg q t k hne]
      exact ih hw'.2 h

lemma mapContains_of_mapGet (m : Registry) (k : String) (b : ContextOwner)
    (h : mapGet m k = some b) : mapContains m k = true := by
  have := mem_of_mapGet m k b h
  simp only [mapContains, List.any_eq_true]
  exact ⟨(k, b), this, by simp⟩

lemma mapContains_eq_false (m : Registry) (k : String) :
    mapContains m k = false ↔ mapGet m k = none := by
  simp [mapContains, List.any_eq_false, mapGet_eq_none]

lemma length_mapSet_pos (m : Registry) (k : String) (v : ContextOwner)
    (h : mapContains m k = true) : (mapSet m k v).length = m.length := by
  simp [mapSet, h]

lemma length_mapSet_neg (m : Registry) (k : String) (v : ContextOwner)
    (h : mapContains m k = false) : (mapSet m k v).length = m.length + 1 := by
  simp [mapSet, h]

lemma keysOf_mapSet_pos (m : Registry) (k : String) (v : ContextOwner)
    (h : mapContains m k = true) : keysOf (mapSet m k v) = keysOf m := by
  simp only [mapSet, h, if_true, keysOf, List.map_map]
  refine List.map_congr_left fun p _ => ?_
  by_cases hp : p.1 = k <;> simp [hp]

lemma keysOf_mapSet_neg (m : Registry) (k : String) (v : ContextOwner)
    (h : mapContains m k = false) : keysOf (mapSet m k v) = keysOf m ++ [k] := by
  simp [mapSet, h, keysOf]

lemma not_mem_keysOf_of_not_contains (m : Registry) (k : String)
    (h : mapContains m k = false) : k ∉ keysOf m := by
  intro hmem
  obtain ⟨p, hp, hfst⟩ := List.mem_map.1 hmem
  have : mapContains m k = true := by
    simp only [mapContains, List.any_eq_true]
    exact ⟨p, hp, by simp [hfst]⟩
  simp [this] at h

lemma Wf_mapSet (m : Registry) (k : String) (v : ContextOwner)
    (hw : Wf m) : Wf (mapSet m k v) := by
  have hw2 : (keysOf m).Nodup := hw
  by_cases h : mapContains m k
  · unfold Wf
    rw [keysOf_mapSet_pos m k v h]
    exact hw
  · have hf : mapContains m k = false := by simpa using h
    unfold Wf
    rw [keysOf_mapSet_neg m k v hf]
    have hk := not_mem_keysOf_of_not_contains m k hf
    simp [List.nodup_append, hw2, hk]

lemma mem_mapDelete (m : Registry) (k : String) (p : String × ContextOwner)
    (h : p ∈ mapDelete m k) : p ∈ m ∧ p.1 ≠ k := by
  have := List.mem_filter.1 h
  simpa [bne_iff_ne] using this

lemma mapDelete_eq_self (m : Registry) (k : String)
    (h : ∀ p ∈ m, p.1 ≠ k) : mapDelete m k = m := by
  simp only [mapDelete]
  rw [List.filter_eq_self]
  intro p hp
  simpa [bne_iff_ne] using h p hp

lemma mapGet_mapDelete_self (m : Registry) (k : String) :
    mapGet (mapDelete m k) k = none := by
  rw [mapGet_eq_none]
  intro p hp
  exact (mem_mapDelete m k p hp).2

lemma mapGet_mapDelete_ne (m : Registry) (k k' : String) (h : k' ≠ k) :
    mapGet (mapDelete m k) k' = mapGet m k' := by
  induction m with
  | nil => rfl
  | cons q t ih =>
    by_cases hq : q.1 = k
    · have hne : q.1 ≠ k' := fun he => h (he.symm.trans hq)
      rw [mapDelete_cons_pos q t k hq, mapGet_cons_neg q t k' hne, ih]
    · rw [mapDelete_cons_neg q t k hq]
      by_cases hq' : q.1 = k'
      · rw [mapGet_cons_pos q _ k' hq', mapGet_cons_pos q t k' hq']
      · rw [mapGet_cons_neg q _ k' hq', mapGet_cons_neg q t k' hq', ih]

lemma length_mapDelete (m : Registry) (k : String) (b : ContextOwner)
    (hw : Wf m) (h : mapGet m k = some b) :
    m.length = (mapDelete m k).length + 1 := by
  induction m with
  | nil => simp [mapGet] at h
  | cons q t ih =>
    have hw' : q.1 ∉ keysOf t ∧ Wf t := by
      simpa [Wf, keysOf, List.nodup_cons] using hw
    by_cases hq : q.1 = k
    · have h2 : mapDelete t k = t := by
        refine mapDelete_eq_self t k fun p hp he => ?_
        exact hw'.1 (hq ▸ he ▸ (List.mem_map.2 ⟨p, hp, rfl⟩))
      rw [mapDelete_cons_pos q t k hq, h2]
      simp
    · rw [mapDelete_cons_neg q t k hq]
      simp only [List.length_cons]
      rw [ih hw'.2 ((mapGet_cons_neg q t k hq) ▸ h)]

lemma Wf_mapDelete (m : Registry) (k : String) (hw : Wf m) :
    Wf (mapDelete m k) := by
  have hs : List.Sublist (mapDelete m k) m := List.filter_sublist m
  exact List.Nodup.sublist (hs.map Prod.fst) hw

lemma mapGet_map_update (m : Registry) (k : String) (v : ContextOwner)
    (h : mapContains m k = true) :
    mapGet (m.map fun p => if p.1 == k then (k, v) else p) k = some v := by
  induction m with
  | nil => simp [mapContains] at h
  | cons q t ih =>
    by_cases hq : q.1 = k
    · have hhead : (if q.1 == k then (k, v) else q) = (k, v) := by simp [hq]
      simp only [List.map_cons, hhead]
      exact mapGet_cons_pos (k, v) _ k rfl
    · have hhead : (if q.1 == k then (k, v) else q) = q := by simp [hq]
      simp only [List.map_cons, hhead]
      rw [mapGet_cons_neg q _ k hq]
      refine ih ?_
      simpa [mapContains, hq] using h

lemma mapGet_append_right (m : Registry) (k : String) (v : ContextOwner)
    (h : mapGet m k = none) : mapGet (m ++ [(k, v)]) k = some v := by
  induction m with
  | nil => exact mapGet_cons_pos (k, v) [] k rfl
  | cons q t ih =>
    have hq : q.1 ≠ k := ((mapGet_eq_none (q :: t) k).1 h) q (List.mem_cons_self q t)
    rw [List.cons_append, mapGet_cons_neg q _ k hq]
    refine ih ?_
    rw [← mapGet_cons_neg q t k hq]
    exact h

lemma mapGet_mapSet_self (m : Registry) (k : String) (v : ContextOwner) :
    mapGet (mapSet m k v) k = some v := by
  by_cases h : mapContains m k
  · have : mapSet m k v = m.map fun p => if p.1 == k then (k, v) else p := by
      simp [mapSet, h]
    rw [this]
    exact mapGet_map_update m k v h
  · have hf : mapContains m k = false := by simpa using h
    have : mapSet m k v = m ++ [(k, v)] := by simp [mapSet, hf]
    rw [this]
    exact mapGet_append_right m k v ((mapContains_eq_false m k).1 hf)

/-- Lexicographic order tested by the eviction scan: strictly lower
priority, or equal priority and strictly older createdAt. -/
def lexLT (a b : ContextOwner) : Prop :=
  a.priority < b.priority ∨ (a.priority = b.priority ∧ a.createdAt < b.createdAt)

/-- Reflexive closure of lexLT restricted to the two scanned fields. -/
def lexLE (a b : ContextOwner) : Prop :=
  a.priority < b.priority ∨ (a.priority = b.priority ∧ a.createdAt ≤ b.createdAt)

lemma lexLE_refl (a : ContextOwner) : lexLE a a := Or.inr ⟨rfl, le_refl _⟩

lemma lexLE_trans (a b c : ContextOwner) (h1 : lexLE a b) (h2 : lexLE b c) :
    lexLE a c := by
  unfold lexLE at h1 h2 ⊢
  omega

lemma lexLE_of_lexLT (a b : ContextOwner) (h : lexLT a b) : lexLE a b := by
  unfold lexLT at h
  unfold lexLE
  omega

lemma lexLE_of_not_lexLT (a b : ContextOwner) (h : ¬ lexLT a b) : lexLE b a := by
  unfold lexLT at h
  unfold lexLE
  omega

lemma scanStep_init (p : String × ContextOwner) :
    scanStep ⟨none, none, none⟩ p
      = ⟨some p.2.priority, some p.2.createdAt, some p.1⟩ := rfl

lemma scanStep_some_pos (t : String) (b : ContextOwner)
    (p : String × ContextOwner) (h : lexLT p.2 b) :
    scanStep ⟨some b.priority, some b.createdAt, some t⟩ p
      = ⟨some p.2.priority, some p.2.createdAt, some p.1⟩ := by
  have hb : (decide (p.2.priority < b.priority)
      || (p.2.priority == b.priority && decide (p.2.createdAt < b.createdAt)))
        = true := by
    rcases h with h | ⟨h, h'⟩
    · simp [h]
    · simp [h, h']
  simp [scanStep, hb]

lemma scanStep_some_neg (t : String) (b : ContextOwner)
    (p : String × ContextOwner) (h : ¬ lexLT p.2 b) :
    scanStep ⟨some b.priority, some b.createdAt, some t⟩ p
      = ⟨some b.priority, some b.createdAt, some t⟩ := by
  have h1 : ¬ p.2.priority < b.priority := fun hc => h (Or.inl hc)
  have hb : (decide (p.2.priority < b.priority)
      || (p.2.priority == b.priority && decide (p.2.createdAt < b.createdAt)))
        = false := by
    by_cases he : p.2.priority = b.priority
    · have h2 : ¬ p.2.createdAt < b.createdAt := fun hc => h (Or.inr ⟨he, hc⟩)
      simp [h1, he, h2]
    · simp [h1, he]
  simp [scanStep, hb]

lemma scan_aux (l : Registry) : ∀ (t : String) (b : ContextOwner),
    ∃ t' b', ((t', b') = (t, b) ∨ (t', b') ∈ l) ∧
      List.foldl scanStep ⟨some b.priority, some b.createdAt, some t⟩ l
        = ⟨some b'.priority, some b'.createdAt, some t'⟩ ∧
      lexLE b' b ∧ ∀ q ∈ l, lexLE b' q.2 := by
  induction l with
  | nil =>
    intro t b
    exact ⟨t, b, Or.inl rfl, rfl, lexLE_refl b, by simp⟩
  | cons p rest ih =>
    intro t b
    by_cases h : lexLT p.2 b
    · obtain ⟨t', b', hmem, heq, hle, hall⟩ := ih p.1 p.2
      refine ⟨t', b', ?_, ?_, ?_, ?_⟩
      · rcases hmem with hm | hm
        · exact Or.inr (List.mem_cons.2 (Or.inl hm))
        · exact Or.inr (List.mem_cons.2 (Or.inr hm))
      · rw [List.foldl_cons, scanStep_some_pos t b p h]
        exact heq
      · exact lexLE_trans b' p.2 b hle (lexLE_of_lexLT p.2 b h)
      · intro q hq
        rcases List.mem_cons.1 hq with hq | hq
        · rw [hq]
          exact hle
        · exact hall q hq
    · obtain ⟨t', b', hmem, heq, hle, hall⟩ := ih t b
      refine ⟨t', b', ?_, ?_, hle, ?_⟩
      · rcases hmem with hm | hm
        · exact Or.inl hm
        · exact Or.inr (List.mem_cons.2 (Or.inr hm))
      · rw [List.foldl_cons, scanStep_some_neg t b p h]
        exact heq
      · intro q hq
        rcases List.mem_cons.1 hq with hq | hq
        · rw [hq]
          exact lexLE_trans b' b p.2 hle (lexLE_of_not_lexLT p.2 b h)
        · exact hall q hq

lemma scan_spec (m : Registry) (hne : m ≠ []) :
    ∃ t b, (t, b) ∈ m ∧
      List.foldl scanStep ⟨none, none, none⟩ m
        = ⟨some b.priority, some b.createdAt, some t⟩ ∧
      ∀ q ∈ m, lexLE b q.2 := by
  match m with
  | [] => exact absurd rfl hne
  | p :: rest =>
    obtain ⟨t', b', hmem, heq, hle, hall⟩ := scan_aux rest p.1 p.2
    refine ⟨t', b', ?_, ?_, ?_⟩
    · rcases hmem with hm | hm
      · exact List.mem_cons.2 (Or.inl hm)
      · exact List.mem_cons.2 (Or.inr hm)
    · rw [List.foldl_cons, scanStep_init]
      exact heq
    · intro q hq
      rcases List.mem_cons.1 hq with hq | hq
      · rw [hq]
        exact hle
      · exact hall q hq

lemma removeLowestPriority_eq (m : Registry) (hne : m ≠ []) (t : String)
    (b : ContextOwner)
    (heq : List.foldl scanStep ⟨none, none, none⟩ m
      = ⟨some b.priority, some b.createdAt, some t⟩) :
    removeLowestPriority m = if t ≠ "" then unregister m t else (m, []) := by
  have h0 : (mapSize m == 0) = false := by
    simp [mapSize, List.length_eq_zero, hne]
  simp only [removeLowestPriority, h0, Bool.false_eq_true, if_false, heq,
    bne_iff_ne, ne_eq]

lemma unregister_of_mem (m : Registry) (t : String) (b : ContextOwner)
    (hw : Wf m) (hmem : (t, b) ∈ m) :
    unregister m t = (mapDelete m t, [b.cleanup]) := by
  unfold unregister
  rw [mapGet_of_mem m t b hw hmem]

/-- Full case analysis of the eviction step: either nothing is removed
(empty registry, or the scan's winner has the empty-string id, which the
JS-truthy guard if (targetId) treats like null), or exactly the
lexicographically least owner is unregistered. -/
lemma removeLowestPriority_cases (m : Registry) (hw : Wf m) :
    (removeLowestPriority m = (m, []) ∧
      (m = [] ∨ ∃ b, ("", b) ∈ m ∧ ∀ q ∈ m, lexLE b q.2)) ∨
    (∃ t b, (t, b) ∈ m ∧ t ≠ "" ∧ mapGet m t = some b ∧
      (∀ q ∈ m, lexLE b q.2) ∧
      removeLowestPriority m = (mapDelete m t, [b.cleanup]) ∧
      removeLowestPriority m = unregister m t) := by
  by_cases hne : m = []
  · left
    subst hne
    exact ⟨rfl, Or.inl rfl⟩
  · obtain ⟨t, b, hmem, heq, hall⟩ := scan_spec m hne
    have hred := removeLowestPriority_eq m hne t b heq
    by_cases ht : t = ""
    · left
      rw [if_neg (by simp [ht])] at hred
      subst ht
      exact ⟨hred, Or.inr ⟨b, hmem, hall⟩⟩
    · right
      rw [if_pos ht] at hred
      have hu := unregister_of_mem m t b hw hmem
      exact ⟨t, b, hmem, ht, mapGet_of_mem m t b hw hmem, hall,
        hu ▸ hred, hred⟩

lemma Wf_mem_unique (m : Registry) (k : String) (b : ContextOwner)
    (q : String × ContextOwner) (hw : Wf m) (h1 : (k, b) ∈ m) (h2 : q ∈ m)
    (hq : q.1 = k) : q = (k, b) := by
  have hgb : mapGet m k = some b := mapGet_of_mem m k b hw h1
  have hq2 : (k, q.2) ∈ m := by
    have : q = (k, q.2) := by
      obtain ⟨q1, q2⟩ := q
      simp_all
    exact this ▸ h2
  have hgq : mapGet m k = some q.2 := mapGet_of_mem m k q.2 hw hq2
  have : q.2 = b := by
    rw [hgb] at hgq
    exact (Option.some.inj hgq).symm
  obtain ⟨q1, q2⟩ := q
  simp_all

lemma keyConsistent_mapSet (m : Registry) (k : String) (v : ContextOwner)
    (hk : keyConsistent m) (hv : v.id = k) : keyConsistent (mapSet m k v) := by
  intro p hp
  by_cases h : mapContains m k
  · have hset : mapSet m k v = m.map fun q => if q.1 == k then (k, v) else q := by
      simp [mapSet, h]
    rw [hset] at hp
    obtain ⟨q, hq, hfq⟩ := List.mem_map.1 hp
    by_cases hqk : q.1 = k
    · rw [← hfq]
      simp [hqk, hv]
    · rw [← hfq]
      simp only [hqk, beq_iff_eq, if_false]
      exact hk q hq
  · have hf : mapContains m k = false := by simpa using h
    have hset : mapSet m k v = m ++ [(k, v)] := by simp [mapSet, hf]
    rw [hset] at hp
    rcases List.mem_append.1 hp with hp | hp
    · exact hk p hp
    · have : p = (k, v) := by simpa using hp
      rw [this]
      exact hv

lemma keyConsistent_of_sub (m m' : Registry) (h : ∀ p ∈ m', p ∈ m)
    (hk : keyConsistent m) : keyConsistent m' := fun p hp => hk p (h p hp)

lemma unregister_fst_sub (m : Registry) (id : String) :
    ∀ p ∈ (unregister m id).1, p ∈ m := by
  intro p hp
  cases hg : mapGet m id with
  | none =>
    simp only [unregister, hg] at hp
    exact hp
  | some b =>
    simp only [unregister, hg] at hp
    exact (mem_mapDelete m id p hp).1

lemma removeLowestPriority_fst_sub (m : Registry) :
    ∀ p ∈ (removeLowestPriority m).1, p ∈ m := by
  by_cases hne : m = []
  · subst hne
    intro p hp
    simp only [removeLowestPriority] at hp
    exact hp
  · obtain ⟨t, b, hmem, heq, hall⟩ := scan_spec m hne
    rw [removeLowestPriority_eq m hne t b heq]
    by_cases ht : t = ""
    · simp [ht]
    · rw [if_pos ht]
      exact unregister_fst_sub m t

lemma register_spec (m : Registry) (id : String) (c : Nat) (p : Int)
    (now : Nat) :
    register m id c p now
      = if MAX_CONTEXTS ≤ mapSize m
        then (mapSet (removeLowestPriority m).1 id ⟨id, p, c, now⟩,
              (removeLowestPriority m).2)
        else (mapSet m id ⟨id, p, c, now⟩, []) := by
  unfold register
  split <;> rfl


instance (a b : ContextOwner) : Decidable (lexLT a b) := by
  unfold lexLT
  infer_instance

instance (a b : ContextOwner) : Decidable (lexLE a b) := by
  unfold lexLE
  infer_instance

lemma keyConsistent_nil : keyConsistent ([] : Registry) := by
  intro p hp
  cases hp

lemma keyConsistent_unregister (m : Registry) (id : String)
    (hk : keyConsistent m) : keyConsistent (unregister m id).1 :=
  keyConsistent_of_sub m _ (unregister_fst_sub m id) hk

lemma keyConsistent_updatePriority (m : Registry) (id : String) (p : Int)
    (hk : keyConsistent m) : keyConsistent (updatePriority m id p) := by
  cases hg : mapGet m id with
  | none =>
    simp only [updatePriority, hg]
    exact hk
  | some b =>
    have hb : b.id = id := hk (id, b) (mem_of_mapGet m id b hg)
    simp only [updatePriority, hg]
    exact keyConsistent_mapSet m id _ hk hb

lemma keyConsistent_register (m : Registry) (id : String) (c : Nat) (p : Int)
    (now : Nat) (hk : keyConsistent m) :
    keyConsistent (register m id c p now).1 := by
  rw [register_spec]
  by_cases hcap : MAX_CONTEXTS ≤ mapSize m
  · rw [if_pos hcap]
    exact keyConsistent_mapSet _ id _
      (keyConsistent_of_sub m _ (removeLowestPriority_fst_sub m) hk) rfl
  · rw [if_neg hcap]
    exact keyConsistent_mapSet m id _ hk rfl

/-- Twelve-owner registry at capacity whose lexicographically least owner
(priority 0, oldest createdAt) is registered under the empty-string id. -/
def regEmptyMin : Registry :=
  [("", ⟨"", 0, 100, 0⟩), ("b", ⟨"b", 0, 101, 1⟩), ("c", ⟨"c", 0, 102, 2⟩),
   ("d", ⟨"d", 0, 103, 3⟩), ("e", ⟨"e", 0, 104, 4⟩), ("f", ⟨"f", 0, 105, 5⟩),
   ("g", ⟨"g", 0, 106, 6⟩), ("h", ⟨"h", 0, 107, 7⟩), ("i", ⟨"i", 0, 108, 8⟩),
   ("j", ⟨"j", 0, 109, 9⟩), ("k", ⟨"k", 0, 110, 10⟩), ("l", ⟨"l", 0, 111, 11⟩)]

/-- Thirteen register calls from the empty registry: the twelve owners of
regEmptyMin in order, then one more while the empty-string owner is the
eviction scan's pick. -/
def overflowOps : List Op :=
  [Op.register "" 100 0 0, Op.register "b" 101 0 1, Op.register "c" 102 0 2,
   Op.register "d" 103 0 3, Op.register "e" 104 0 4, Op.register "f" 105 0 5,
   Op.register "g" 106 0 6, Op.register "h" 107 0 7, Op.register "i" 108 0 8,
   Op.register "j" 109 0 9, Op.register "k" 110 0 10, Op.register "l" 111 0 11,
   Op.register "x" 112 0 12]

/-- Twelve-owner registry at capacity whose eviction pick is the owner
registered under "a" (cleanup token 200). -/
def regDupMin : Registry :=
  [("a", ⟨"a", 0, 200, 0⟩), ("b", ⟨"b", 1, 201, 1⟩), ("c", ⟨"c", 1, 202, 2⟩),
   ("d", ⟨"d", 1, 203, 3⟩), ("e", ⟨"e", 1, 204, 4⟩), ("f", ⟨"f", 1, 205, 5⟩),
   ("g", ⟨"g", 1, 206, 6⟩), ("h", ⟨"h", 1, 207, 7⟩), ("i", ⟨"i", 1, 208, 8⟩),
   ("j", ⟨"j", 1, 209, 9⟩), ("k", ⟨"k", 1, 210, 10⟩), ("l", ⟨"l", 1, 211, 11⟩)]

/-- Two-owner registry used by the drain-all witness. -/
def drainReg : Registry :=
  [("a", ⟨"a", 1, 300, 0⟩), ("b", ⟨"b", 2, 301, 1⟩)]

/-- Two-owner registry used by the unregister and updatePriority
witnesses. -/
def pairReg : Registry :=
  [("a", ⟨"a", 1, 400, 5⟩), ("b", ⟨"b", 2, 401, 6⟩)]

/-- C1: the capacity invariant fails on the code.  Starting from the
empty registry, the thirteen register calls of overflowOps leave thirteen
owners registered when the last one returns: the eviction guard is the
JS-truthy test if (targetId), which is false for the empty-string id, so
the eviction is silently skipped and the insert still happens. -/
theorem register_capacity_overflow :
    mapSize (execOps [] overflowOps) = MAX_CONTEXTS + 1 := by decide

/-- C2: eviction determinism fails on the code.  regEmptyMin is at
capacity and the owner under the empty-string id is least in the
(priority, createdAt) order among all registered owners, yet a register
call at capacity removes no owner at all: no cleanup is invoked and that
least owner is still registered when the call returns. -/
theorem eviction_skips_lowest_priority_empty_id :
    mapSize regEmptyMin = MAX_CONTEXTS ∧
    (∀ q ∈ regEmptyMin, lexLE (⟨"", 0, 100, 0⟩ : ContextOwner) q.2) ∧
    (register regEmptyMin "x" 112 5 100).2 = [] ∧
    mapGet (register regEmptyMin "x" 112 5 100).1 ""
      = some ⟨"", 0, 100, 0⟩ := by decide

/-- C3: the single-eviction-per-register policy fails on the code: with
twelve owners registered (at capacity), the register call below removes
zero owners instead of exactly one, and the registry grows to thirteen. -/
theorem register_at_capacity_removes_nothing :
    MAX_CONTEXTS ≤ mapSize regEmptyMin ∧
    (register regEmptyMin "y" 113 7 200).2.length = 0 ∧
    mapSize (register regEmptyMin "y" 113 7 200).1
      = mapSize regEmptyMin + 1 := by decide

/-- C4: whenever the eviction step of register removes an owner, it does
so through the unregister path: that owner's cleanup is invoked exactly
once and the owner is deleted from the registry, identically to an
explicit unregister of its id; and at capacity register is exactly the
eviction step followed by the insertion. -/
theorem eviction_via_unregister_path (m : Registry) (hw : Wf m)
    (id : String) (c : Nat) (p : Int) (now : Nat)
    (hcap : MAX_CONTEXTS ≤ mapSize m) :
    (removeLowestPriority m = (m, []) ∨
      ∃ t b, mapGet m t = some b ∧
        removeLowestPriority m = unregister m t ∧
        unregister m t = (mapDelete m t, [b.cleanup])) ∧
    register m id c p now
      = (mapSet (removeLowestPriority m).1 id ⟨id, p, c, now⟩,
         (removeLowestPriority m).2) := by
  constructor
  · rcases removeLowestPriority_cases m hw with
      ⟨h, _⟩ | ⟨t, b, hmem, ht, hget, hall, hdel, hu⟩
    · exact Or.inl h
    · refine Or.inr ⟨t, b, hget, hu, ?_⟩
      unfold unregister
      rw [hget]
  · rw [register_spec m id c p now, if_pos hcap]

/-- Witness for C4 at a concrete registry at capacity. -/
theorem eviction_via_unregister_path_witness :
    Wf regDupMin ∧ MAX_CONTEXTS ≤ mapSize regDupMin ∧
    ((removeLowestPriority regDupMin = (regDupMin, []) ∨
       ∃ t b, mapGet regDupMin t = some b ∧
         removeLowestPriority regDupMin = unregister regDupMin t ∧
         unregister regDupMin t = (mapDelete regDupMin t, [b.cleanup])) ∧
     register regDupMin "x" 99 5 100
       = (mapSet (removeLowestPriority regDupMin).1 "x" ⟨"x", 5, 99, 100⟩,
          (removeLowestPriority regDupMin).2)) :=
  ⟨by decide, by decide,
   eviction_via_unregister_path regDupMin (by decide) "x" 99 5 100 (by decide)⟩

/-- C5: drain-all postcondition: after cleanupAll the registry is empty,
the cleanups invoked are exactly those of the owners registered at the
call, in order, and when the cleanup tokens are pairwise distinct each
registered owner's cleanup is invoked exactly once. -/
theorem cleanupAll_drains (m : Registry) :
    mapSize (cleanupAll m).1 = 0 ∧
    (cleanupAll m).2 = m.map (fun q => q.2.cleanup) ∧
    ((m.map fun q => q.2.cleanup).Nodup →
      ∀ q ∈ m, (cleanupAll m).2.count q.2.cleanup = 1) := by
  refine ⟨rfl, rfl, fun hnd q hq => ?_⟩
  have hmem : q.2.cleanup ∈ m.map fun q => q.2.cleanup :=
    List.mem_map.2 ⟨q, hq, rfl⟩
  simpa [cleanupAll] using List.count_eq_one_of_mem hnd hmem

/-- Witness for C5 at a concrete two-owner registry. -/
theorem cleanupAll_drains_witness :
    (drainReg.map fun q => q.2.cleanup).Nodup ∧
    mapSize (cleanupAll drainReg).1 = 0 ∧
    (cleanupAll drainReg).2 = drainReg.map (fun q => q.2.cleanup) ∧
    (∀ q ∈ drainReg, (cleanupAll drainReg).2.count q.2.cleanup = 1) :=
  ⟨by decide, (cleanupAll_drains drainReg).1, (cleanupAll_drains drainReg).2.1,
   (cleanupAll_drains drainReg).2.2 (by decide)⟩

/-- C6: unregister with a present id invokes that owner's cleanup and
removes the entry; with an absent id it is a no-op that leaves the
registry unchanged; a second unregister of the same id invokes no
cleanup. -/
theorem unregister_semantics (m : Registry) (id : String) :
    (∀ b, mapGet m id = some b →
      unregister m id = (mapDelete m id, [b.cleanup])) ∧
    (mapGet m id = none → unregister m id = (m, [])) ∧
    unregister (unregister m id).1 id = ((unregister m id).1, []) := by
  refine ⟨fun b hb => ?_, fun hn => ?_, ?_⟩
  · unfold unregister
    rw [hb]
  · unfold unregister
    rw [hn]
  · cases hg : mapGet m id with
    | none =>
      have h1 : unregister m id = (m, []) := by
        unfold unregister
        rw [hg]
      rw [h1]
      exact h1
    | some b =>
      have h1 : unregister m id = (mapDelete m id, [b.cleanup]) := by
        unfold unregister
        rw [hg]
      rw [h1]
      show unregister (mapDelete m id) id = (mapDelete m id, [])
      unfold unregister
      rw [mapGet_mapDelete_self]

/-- Witness for C6 at a concrete registry with the id present. -/
theorem unregister_semantics_witness :
    mapGet pairReg "a" = some ⟨"a", 1, 400, 5⟩ ∧
    unregister pairReg "a" = (mapDelete pairReg "a", [(400 : Nat)]) ∧
    unregister (unregister pairReg "a").1 "a"
      = ((unregister pairReg "a").1, []) :=
  ⟨by decide,
   (unregister_semantics pairReg "a").1 ⟨"a", 1, 400, 5⟩ (by decide),
   (unregister_semantics pairReg "a").2.2⟩

/-- C7: updatePriority frame condition: with id present exactly that
entry's priority field is overwritten (its id, cleanup and createdAt
fields and every other entry are unchanged, nothing is added or
removed); with id absent the registry is unchanged; and no cleanup
action is invoked. -/
theorem updatePriority_frame (m : Registry) (hw : Wf m) (id : String)
    (p : Int) :
    (∀ b, mapGet m id = some b →
      updatePriority m id p
        = m.map fun q =>
            if q.1 = id then (q.1, ⟨q.2.id, p, q.2.cleanup, q.2.createdAt⟩)
            else q) ∧
    (mapGet m id = none → updatePriority m id p = m) ∧
    (applyOp m (Op.updatePriority id p)).2 = [] := by
  refine ⟨fun b hb => ?_, fun hn => ?_, rfl⟩
  · have hmem : (id, b) ∈ m := mem_of_mapGet m id b hb
    have hc : mapContains m id = true := mapContains_of_mapGet m id b hb
    have hset : mapSet m id ⟨b.id, p, b.cleanup, b.createdAt⟩
        = m.map fun q =>
            if q.1 == id then (id, ⟨b.id, p, b.cleanup, b.createdAt⟩)
            else q := by
      simp [mapSet, hc]
    simp only [updatePriority, hb]
    rw [hset]
    refine List.map_congr_left fun q hq => ?_
    by_cases hqk : q.1 = id
    · have hqe : q = (id, b) := Wf_mem_unique m id b q hw hmem hq hqk
      rw [hqe]
      simp
    · simp [hqk]
  · unfold updatePriority
    rw [hn]

/-- Witness for C7 at a concrete registry with the id present. -/
theorem updatePriority_frame_witness :
    Wf pairReg ∧ mapGet pairReg "a" = some ⟨"a", 1, 400, 5⟩ ∧
    updatePriority pairReg "a" 9
      = pairReg.map (fun q =>
          if q.1 = "a" then (q.1, ⟨q.2.id, (9 : Int), q.2.cleanup, q.2.createdAt⟩)
          else q) ∧
    (applyOp pairReg (Op.updatePriority "a" 9)).2 = [] :=
  ⟨by decide, by decide,
   (updatePriority_frame pairReg (by decide) "a" 9).1 ⟨"a", 1, 400, 5⟩
     (by decide),
   (updatePriority_frame pairReg (by decide) "a" 9).2.2⟩

/-- C8: isNearLimit returns true exactly when the context count is at
least MAX_CONTEXTS minus 2, that is at least ten, and getContextCount is
the number of registered owners. -/
theorem isNearLimit_iff (m : Registry) :
    (isNearLimit m = true ↔ MAX_CONTEXTS - 2 ≤ getContextCount m) ∧
    (isNearLimit m = true ↔ 10 ≤ getContextCount m) ∧
    getContextCount m = m.length := by
  refine ⟨?_, ?_, rfl⟩
  · simp [isNearLimit, getContextCount, mapSize]
  · simp [isNearLimit, getContextCount, mapSize, MAX_CONTEXTS]

/-- C9, counterexample: the clause "without ever invoking the replaced
entry's cleanup action" is false on the code.  Re-registering the already
registered id "a" while the registry is at capacity invokes the replaced
entry's own cleanup (token 200), because the eviction step that runs
first selects exactly that entry. -/
theorem duplicate_register_invokes_replaced_cleanup :
    mapGet regDupMin "a" = some ⟨"a", 0, 200, 0⟩ ∧
    MAX_CONTEXTS ≤ mapSize regDupMin ∧
    (register regDupMin "a" 99 5 100).2 = [200] := by decide

/-- C9 (amended): register with an already registered id stores the new
cleanup, priority and fresh createdAt under that id; below capacity
nothing is evicted, no cleanup runs and the size is unchanged; at
capacity the eviction step runs first, the cleanups invoked are exactly
those of the evicted owner (possibly the replaced entry itself), and when
the evicted owner has a different id the registry size strictly
decreases. -/
theorem duplicate_register_characterization (m : Registry) (hw : Wf m)
    (id : String) (c : Nat) (p : Int) (now : Nat) (b : ContextOwner)
    (hb : mapGet m id = some b) :
    mapGet (register m id c p now).1 id = some ⟨id, p, c, now⟩ ∧
    (mapSize m < MAX_CONTEXTS →
      register m id c p now = (mapSet m id ⟨id, p, c, now⟩, []) ∧
      mapSize (register m id c p now).1 = mapSize m) ∧
    (MAX_CONTEXTS ≤ mapSize m →
      ((register m id c p now).2 = [] ∨
        ∃ t b2, (t, b2) ∈ m ∧ (register m id c p now).2 = [b2.cleanup] ∧
          (t ≠ id → mapSize (register m id c p now).1 + 1 = mapSize m))) := by
  have hc : mapContains m id = true := mapContains_of_mapGet m id b hb
  refine ⟨?_, fun hlt => ?_, fun hcap => ?_⟩
  · rw [register_spec]
    by_cases hcap : MAX_CONTEXTS ≤ mapSize m
    · rw [if_pos hcap]
      exact mapGet_mapSet_self _ id _
    · rw [if_neg hcap]
      exact mapGet_mapSet_self m id _
  · have hreg : register m id c p now = (mapSet m id ⟨id, p, c, now⟩, []) := by
      rw [register_spec, if_neg (not_le.2 hlt)]
    refine ⟨hreg, ?_⟩
    rw [hreg]
    exact length_mapSet_pos m id _ hc
  · have hreg : register m id c p now
        = (mapSet (removeLowestPriority m).1 id ⟨id, p, c, now⟩,
           (removeLowestPriority m).2) := by
      rw [register_spec, if_pos hcap]
    rcases removeLowestPriority_cases m hw with
      ⟨h, _⟩ | ⟨t, b2, hmem, ht, hget, hall, hdel, hu⟩
    · left
      rw [hreg, h]
    · right
      refine ⟨t, b2, hmem, ?_, fun htid => ?_⟩
      · rw [hreg, hdel]
      · have hid : mapGet (mapDelete m t) id = some b := by
          rw [mapGet_mapDelete_ne m t id (Ne.symm htid)]
          exact hb
        have hcid : mapContains (mapDelete m t) id = true :=
          mapContains_of_mapGet _ id b hid
        have h1 : mapSize (register m id c p now).1 = (mapDelete m t).length := by
          rw [hreg, hdel]
          exact length_mapSet_pos _ id _ hcid
        have h2 : m.length = (mapDelete m t).length + 1 :=
          length_mapDelete m t b2 hw hget
        rw [h1]
        exact h2.symm

/-- Witness for the amended C9 at a concrete registry at capacity with
the re-registered id present. -/
theorem duplicate_register_characterization_witness :
    Wf regDupMin ∧ mapGet regDupMin "a" = some ⟨"a", 0, 200, 0⟩ ∧
    (mapGet (register regDupMin "a" 99 5 100).1 "a"
        = some ⟨"a", 5, 99, 100⟩ ∧
     (mapSize regDupMin < MAX_CONTEXTS →
       register regDupMin "a" 99 5 100
         = (mapSet regDupMin "a" ⟨"a", 5, 99, 100⟩, []) ∧
       mapSize (register regDupMin "a" 99 5 100).1 = mapSize regDupMin) ∧
     (MAX_CONTEXTS ≤ mapSize regDupMin →
       ((register regDupMin "a" 99 5 100).2 = [] ∨
         ∃ t b2, (t, b2) ∈ regDupMin ∧
           (register regDupMin "a" 99 5 100).2 = [b2.cleanup] ∧
           (t ≠ "a" → mapSize (register regDupMin "a" 99 5 100).1 + 1
             = mapSize regDupMin)))) :=
  ⟨by decide, by decide,
   duplicate_register_characterization regDupMin (by decide) "a" 99 5 100
     ⟨"a", 0, 200, 0⟩ (by decide)⟩

/-- C10: every operation preserves the invariant that the entry stored
under key k carries id field k, so the eviction scan's chosen target id
always names the owner it selected. -/
theorem operations_preserve_key_consistency (m : Registry) (op : Op)
    (hk : keyConsistent m) : keyConsistent (applyOp m op).1 := by
  cases op with
  | register id c p now => exact keyConsistent_register m id c p now hk
  | unregister id => exact keyConsistent_unregister m id hk
  | updatePriority id p => exact keyConsistent_updatePriority m id p hk
  | cleanupAll => exact keyConsistent_nil

/-- Witness for C10 at a concrete registry and operation. -/
theorem operations_preserve_key_consistency_witness :
    keyConsistent pairReg ∧
    keyConsistent (applyOp pairReg (Op.register "c" 402 3 7)).1 :=
  ⟨by decide,
   operations_preserve_key_consistency pairReg (Op.register "c" 402 3 7)
     (by decide)⟩
